import Mathlib

/-
Verification of the atugame room/session core.

The definitions below are a shallow embedding of `src/backend/room_manager.py`
(class `RoomManager`), the relevant data model of `src/backend/models.py`, and
the helper `update_question_for_round` of `src/backend/main.py`.  The process
registry `RoomManager.rooms : Dict[str, Room]` is embedded as an association
list of (code, room) pairs; Python's in-place mutation of a `Room` object held
by the dict is embedded as replacing the value stored under the room's key.
Randomness (`generate_code`, `datetime.now()`) is embedded by passing the
generated values as explicit oracle arguments.
-/

namespace AtuGame

/-- Embeds `models.Player` (src/backend/models.py lines 6-11): fields `id`,
`name`, `score : int = 0`, `is_host : bool = False`, `connected : bool = True`.
The class declares no per-player round counter and no `finished` flag. -/
structure Player where
  id : String
  name : String
  score : Int := 0
  is_host : Bool := false
  connected : Bool := true
deriving DecidableEq, Repr

/-- Embeds the current-question record: `models.Question` (models.py lines
14-21), matching the dict literal that `main.py` lines 183-191 stores into
`room.current_question`. -/
structure Question where
  id : Nat
  text : String
  article_title : String
  article_url : String
  hints : List String
  answer_keywords : List String
  difficulty : Nat
deriving DecidableEq, Repr

/-- Embeds the article descriptor dict written by `main.py` lines 148-152:
keys `title`, `url`, `source`. -/
structure Article where
  title : String
  url : String
  source : String
deriving DecidableEq, Repr

/-- Embeds one entry of `quiz_data['questions']` as consumed by
`update_question_for_round` (main.py line 174: `question_data['text']`). -/
structure QuizQuestion where
  text : String
deriving DecidableEq, Repr

/-- Embeds the quiz-data dict produced by the question generator and read via
`quiz_data.get('questions', [])`, `.get('hints', [])`, `.get('title', ...)`,
`.get('answer_keywords', [])`, `.get('full_answer', '')` in `main.py`. -/
structure QuizData where
  title : String
  questions : List QuizQuestion
  hints : List String
  answer_keywords : List String
  full_answer : String
deriving DecidableEq, Repr

/-- Embeds `models.Room` (models.py lines 24-33).  `created_at` is embedded as
an abstract tick.  `quiz_data` is not declared in `models.Room` but `main.py`
line 153 assigns `room.quiz_data = quiz_data` dynamically and lines 167-171
read it back; it is embedded as an optional field, `none` standing for the
attribute being absent/falsy (the `not room.quiz_data` guard). -/
structure Room where
  code : String
  host_id : String
  players : List Player := []
  status : String := "waiting"
  current_question : Option Question := none
  current_round : Nat := 0
  max_rounds : Nat := 5
  created_at : Nat := 0
  article : Option Article := none
  quiz_data : Option QuizData := none
deriving DecidableEq, Repr

/-- The registry `RoomManager.rooms : Dict[str, Room]` as an association list
(insertion order, as Python dicts preserve it). -/
abbrev Rooms := List (String × Room)

/-- Python `self.rooms.get(k)` / `self.rooms[k]` lookup: first binding of the
key (the registries built by the operations never duplicate keys). -/
def dictGet (d : Rooms) (k : String) : Option Room :=
  match d.find? (fun e => e.1 == k) with
  | some e => some e.2
  | none => none

/-- Python `k in self.rooms`. -/
def hasKey (d : Rooms) (k : String) : Bool :=
  d.any (fun e => e.1 == k)

/-- Python `self.rooms[k] = v`, and also the functional image of mutating in
place the `Room` object stored under key `k`: replaces the binding when the
key is present, otherwise appends it. -/
def dictSet (d : Rooms) (k : String) (v : Room) : Rooms :=
  if hasKey d k then d.map (fun e => if e.1 == k then (k, v) else e)
  else d ++ [(k, v)]

/-- Python `del self.rooms[k]` after the key has been checked present. -/
def dictDel (d : Rooms) (k : String) : Rooms :=
  d.filter (fun e => e.1 != k)

/-- Python `str.upper()` on the ASCII strings used as room codes. -/
def pyUpper (s : String) : String :=
  ⟨s.data.map Char.toUpper⟩

/-- Python list slice `l[s:e]` for natural `s` and `e ≤ l.length`. -/
def pySlice {α : Type} (l : List α) (s e : Nat) : List α :=
  (l.take e).drop s

/-- Embeds `RoomManager.create_room` (room_manager.py lines 16-39).
`generate_code` draws characters from `A-Z0-9`, and the
`while code in self.rooms` loop regenerates until the code is fresh, so the
embedding takes the resulting code, the host's player id and the creation
tick as oracle inputs; theorems about well-formed runs assume the code is
uppercase-alphanumeric (hence fixed by `pyUpper`) and fresh, exactly what
`generate_code` and the retry loop guarantee. -/
def create_room (rooms : Rooms) (code player_id host_name : String) (now : Nat) :
    Rooms × Room × String :=
  let host : Player := { id := player_id, name := host_name, is_host := true }
  let room : Room := { code := code, host_id := player_id, players := [host], created_at := now }
  (dictSet rooms code room, room, player_id)

/-- Embeds `RoomManager.get_room` (room_manager.py lines 41-43):
`self.rooms.get(code.upper())`. -/
def get_room (rooms : Rooms) (code : String) : Option Room :=
  dictGet rooms (pyUpper code)

/-- Embeds `RoomManager.join_room` (room_manager.py lines 45-64).  The random
8-character player id is an oracle input.  Returns the updated registry
together with the Python return value `(room, player_id)`; `none` is Python's
`None` (room missing, game not `waiting`, or 10 players already). -/
def join_room (rooms : Rooms) (code player_name player_id : String) :
    Option (Rooms × Room × String) :=
  match get_room rooms code with
  | none => none
  | some room =>
    if room.status ≠ "waiting" then none
    else if 10 ≤ room.players.length then none
    else
      let player : Player := { id := player_id, name := player_name }
      let room' := { room with players := room.players ++ [player] }
      some (dictSet rooms (pyUpper code) room', room', player_id)

/-- Result of `leave_room`: the registry after all mutations that were reached,
plus whether `del self.rooms[code]` raised `KeyError`.  The raise happens after
`room.players` has already been emptied in place, so the emptied room is
visible in the `KeyError` case. -/
structure LeaveResult where
  rooms : Rooms
  key_error : Bool
deriving DecidableEq, Repr

/-- Embeds `RoomManager.leave_room` (room_manager.py lines 66-80).  The lookup
canonicalizes the code (`get_room` upper-cases), but the deletion
`del self.rooms[code]` uses the raw `code` argument, so when the raw code is
not itself a key the deletion raises `KeyError` and the emptied room stays in
the registry. -/
def leave_room (rooms : Rooms) (code player_id : String) : LeaveResult :=
  match get_room rooms code with
  | none => ⟨rooms, false⟩
  | some room =>
    let remaining := room.players.filter (fun p => p.id ≠ player_id)
    if remaining.isEmpty then
      let rooms1 := dictSet rooms (pyUpper code) { room with players := remaining }
      if hasKey rooms1 code then ⟨dictDel rooms1 code, false⟩
      else ⟨rooms1, true⟩
    else
      let room2 :=
        if player_id = room.host_id then
          match remaining with
          | [] => { room with players := remaining }
          | p :: rest =>
            { room with players := { p with is_host := true } :: rest, host_id := p.id }
        else { room with players := remaining }
      ⟨dictSet rooms (pyUpper code) room2, false⟩

/-- Embeds `RoomManager.start_game` (room_manager.py lines 82-90): requires the
room to exist with at least one player, then sets `status = "playing"` and
`current_round = 1` unconditionally (no check of the previous status). -/
def start_game (rooms : Rooms) (code : String) : Rooms × Option Room :=
  match get_room rooms code with
  | none => (rooms, none)
  | some room =>
    if room.players.length < 1 then (rooms, none)
    else
      let room' := { room with status := "playing", current_round := 1 }
      (dictSet rooms (pyUpper code) room', some room')

/-- The result dictionary that `main.py` lines 215-234 expects `submit_guess`
to return (keys `error`, `score`, `current_round`, `finished`). -/
structure GuessResult where
  score : Int
  current_round : Nat
  finished : Bool
  error : Option String
deriving DecidableEq, Repr

/-- Embeds `RoomManager.submit_guess` (room_manager.py lines 92-101): adds 100
to the score of every player whose id matches, when `is_correct`; nothing else
is touched.  The Python function body has no `return` statement, so it returns
`None` on every path — embedded as the constantly-`none` second component. -/
def submit_guess (rooms : Rooms) (code player_id guess : String) (is_correct : Bool) :
    Rooms × Option GuessResult :=
  match get_room rooms code with
  | none => (rooms, none)
  | some room =>
    let players' := room.players.map (fun p =>
      if p.id = player_id ∧ is_correct then { p with score := p.score + 100 } else p)
    (dictSet rooms (pyUpper code) { room with players := players' }, none)

/-- Embeds `RoomManager.next_round` (room_manager.py lines 103-114): increments
the room-level `current_round` and sets `status = "finished"` once it exceeds
`max_rounds`; the player list is not consulted. -/
def next_round (rooms : Rooms) (code : String) : Rooms × Option Room :=
  match get_room rooms code with
  | none => (rooms, none)
  | some room =>
    let r := room.current_round + 1
    let s := if room.max_rounds < r then "finished" else room.status
    let room' := { room with current_round := r, status := s }
    (dictSet rooms (pyUpper code) room', some room')

/-- Stable insertion of a player into a score-descending list: the inserted
player goes before every already-present player of equal or lower score. -/
def insDesc (p : Player) : List Player → List Player
  | [] => [p]
  | q :: qs => if q.score ≤ p.score then p :: q :: qs else q :: insDesc p qs

/-- Stable sort by score descending: the unique stable descending ordering,
which is what CPython's `sorted(..., key=lambda p: p.score, reverse=True)`
produces (Timsort is stable, and `reverse=True` keeps equal keys in their
original relative order). -/
def sortDesc (l : List Player) : List Player :=
  l.foldr insDesc []

/-- Embeds `RoomManager.get_leaderboard` (room_manager.py lines 116-122):
`sorted(room.players, key=lambda p: p.score, reverse=True)`, empty list when
the room is missing. -/
def get_leaderboard (rooms : Rooms) (code : String) : List Player :=
  match get_room rooms code with
  | none => []
  | some room => sortDesc room.players

/-- Embeds `update_question_for_round` (src/backend/main.py lines 164-192).
Returns the registry unchanged when the room is missing, when `quiz_data` is
absent/falsy, or when `round_num` exceeds `len(questions)`.  Otherwise it
recomputes the shared `current_question` from `questions[round_num - 1]` and
the hint window, and sets the room-level `current_round` to `round_num`.  The
guard keeps `1 ≤ round_num`: every call site passes a round number at least 1
(main.py line 156 passes the literal 1), whereas Python would negative-index
`questions[-1]` for 0, which no caller exercises.  `room.article['url']` is
read through the option with default `""`; main.py line 148 always sets
`article` before the first call. -/
def update_question_for_round (rooms : Rooms) (code : String) (round_num : Nat) : Rooms :=
  match get_room rooms code with
  | none => rooms
  | some room =>
    match room.quiz_data with
    | none => rooms
    | some qd =>
      if 1 ≤ round_num ∧ round_num ≤ qd.questions.length then
        let hints_per_round := max 1 (qd.hints.length / room.max_rounds)
        let start_idx := (round_num - 1) * hints_per_round
        let end_idx := min (start_idx + hints_per_round) qd.hints.length
        let round_hints := pySlice qd.hints start_idx end_idx
        let q : Question :=
          { id := round_num,
            text := (qd.questions.getD (round_num - 1) ⟨""⟩).text,
            article_title := qd.title,
            article_url := ((room.article.map Article.url).getD ""),
            hints := round_hints,
            answer_keywords := qd.answer_keywords,
            difficulty := round_num }
        dictSet rooms (pyUpper code)
          { room with current_question := some q, current_round := round_num }
      else rooms

/-- One request against the membership interface: the three operations claim
C5 quantifies over, with the randomly generated identifiers made explicit. -/
inductive Op where
  | create (code player_id host_name : String) (now : Nat)
  | join (code player_name player_id : String)
  | leave (code player_id : String)
deriving DecidableEq, Repr

/-- State transition of one membership request (return values discarded). -/
def applyOp (rooms : Rooms) : Op → Rooms
  | .create code pid name now => (create_room rooms code pid name now).1
  | .join code name pid =>
    match join_room rooms code name pid with
    | some (rooms', _, _) => rooms'
    | none => rooms
  | .leave code pid => (leave_room rooms code pid).rooms

/-- Runs a request sequence from the empty registry of a fresh process. -/
def runOps (ops : List Op) : Rooms :=
  ops.foldl applyOp []

/-- Side conditions on one request: a created code is uppercase-alphanumeric
(what `generate_code` produces) and fresh (what the retry loop guarantees),
and a leave request carries the room code in its canonical uppercase form. -/
def opOkB (rooms : Rooms) : Op → Bool
  | .create code _ _ _ => (pyUpper code == code) && !(hasKey rooms code)
  | .join _ _ _ => true
  | .leave code _ => pyUpper code == code

/-- Side conditions along a whole run. -/
def opsOkB : Rooms → List Op → Bool
  | _, [] => true
  | rooms, op :: rest => opOkB rooms op && opsOkB (applyOp rooms op) rest

/-- Host discipline of a single room: the player list is non-empty, its head is
the (unique) host and carries `host_id`, and everybody else is a non-host.
`create_room` establishes it and the membership operations preserve it. -/
def roomInv (room : Room) : Prop :=
  match room.players with
  | [] => False
  | p :: rest => p.is_host = true ∧ p.id = room.host_id ∧ ∀ q ∈ rest, q.is_host = false

/-- Registry invariant: every binding has a canonical uppercase key (all codes
come from `generate_code`, which draws from `A-Z0-9`) and a room observing the
host discipline. -/
def regInv (rooms : Rooms) : Prop :=
  ∀ e ∈ rooms, pyUpper e.1 = e.1 ∧ roomInv e.2

/-- A room holding just its host, as `create_room` builds it. -/
def soloRoom (code pid name : String) : Room :=
  { code := code, host_id := pid,
    players := [{ id := pid, name := name, is_host := true }] }

/-- Scenario: a playing one-player room, target of a correct guess. -/
def guessDemo : Rooms :=
  [("GUESS1", { soloRoom "GUESS1" "HOST0001" "Alice" with
                status := "playing", current_round := 1 })]

/-- Scenario: a waiting room a second player can join. -/
def joinDemo : Rooms :=
  [("JOIN77", soloRoom "JOIN77" "HOST0003" "Dan")]

/-- Scenario: a room whose sole member leaves it through a lower-cased code. -/
def leaveDemo : Rooms :=
  [("XY99ZZ", soloRoom "XY99ZZ" "HOSTID22" "Carol")]

/-- Scenario: create a room, start the game, and advance the room-level round
five times without any guess being submitted. -/
def chainDemo : Rooms :=
  let s1 := (create_room [] "QWERTY" "HOST0002" "Bob" 0).1
  let s2 := (start_game s1 "QWERTY").1
  let s3 := (next_round s2 "QWERTY").1
  let s4 := (next_round s3 "QWERTY").1
  let s5 := (next_round s4 "QWERTY").1
  let s6 := (next_round s5 "QWERTY").1
  (next_round s6 "QWERTY").1

/-- Scenario: same chain on a second room, used to restart a finished room. -/
def finishDemo : Rooms :=
  let s1 := (create_room [] "ABCDEF" "HOST0001" "Alice" 0).1
  let s2 := (start_game s1 "ABCDEF").1
  let s3 := (next_round s2 "ABCDEF").1
  let s4 := (next_round s3 "ABCDEF").1
  let s5 := (next_round s4 "ABCDEF").1
  let s6 := (next_round s5 "ABCDEF").1
  (next_round s6 "ABCDEF").1

/-- Scenario: the host creates a room and then leaves it with the lower-cased
form of its code. -/
def opsDemo : List Op :=
  [Op.create "AB12C3" "HOSTID11" "Alice" 0, Op.leave "ab12c3" "HOSTID11"]

/-- Scenario: a well-formed run — create, join, then the host leaves with the
canonical code, transferring host status. -/
def opsDemoOk : List Op :=
  [Op.create "CD45E6" "H1AAAAAA" "Alice" 3, Op.join "cd45e6" "Bob" "P2BBBBBB",
   Op.leave "CD45E6" "H1AAAAAA"]

/-- Scenario: quiz data with three questions and six hints, as in the spec's
worked example. -/
def quizDemoData : QuizData :=
  { title := "T", questions := [⟨"q1"⟩, ⟨"q2"⟩, ⟨"q3"⟩],
    hints := ["h1", "h2", "h3", "h4", "h5", "h6"],
    answer_keywords := ["kw"], full_answer := "fa" }

/-- Scenario: a playing room carrying `quizDemoData`. -/
def quizRoom : Room :=
  { soloRoom "QUIZ88" "HOST0004" "Eve" with
    status := "playing", current_round := 1,
    article := some { title := "at", url := "au", source := "asrc" },
    quiz_data := some quizDemoData }

/-- Scenario registry holding `quizRoom`. -/
def quizDemo : Rooms :=
  [("QUIZ88", quizRoom)]

/-- Scenario: the room `finishDemo` reaches — its game over, the host idle. -/
def finishRoom : Room :=
  { code := "ABCDEF", host_id := "HOST0001",
    players := [{ id := "HOST0001", name := "Alice", is_host := true }],
    status := "finished", current_round := 6 }

/-- Scenario: a three-player room with a score tie, for the leaderboard. -/
def boardRoom : Room :=
  { code := "LEAD55", host_id := "HOST0005",
    players := [{ id := "HOST0005", name := "Ann", score := 3, is_host := true },
                { id := "P6CCCCCC", name := "Ben", score := 7 },
                { id := "P7DDDDDD", name := "Cal", score := 3 }],
    status := "playing" }

/-- Scenario registry holding `boardRoom`. -/
def boardDemo : Rooms :=
  [("LEAD55", boardRoom)]

/-- Scenario: a two-player playing room, target of frame-condition checks. -/
def frameRoom : Room :=
  { code := "FRAME9", host_id := "HOST0006",
    players := [{ id := "HOST0006", name := "Gil", score := 100, is_host := true },
                { id := "P8EEEEEE", name := "Hal" }],
    status := "playing", current_round := 2 }

/-- Scenario registry holding `frameRoom`. -/
def frameDemo : Rooms :=
  [("FRAME9", frameRoom)]

theorem map_fixed_eq_self {α : Type} {l : List α} {f : α → α} (h : ∀ a ∈ l, f a = a) :
    l.map f = l := by
  induction l with
  | nil => rfl
  | cons x xs ih =>
    rw [List.map_cons, h x (by simp), ih (fun a ha => h a (by simp [ha]))]

theorem hasKey_false_of_no_match {d : Rooms} {k : String} (h : hasKey d k = false) :
    ∀ e ∈ d, (e.1 == k) = false := by
  intro e he
  by_contra hc
  rw [Bool.not_eq_false] at hc
  have : hasKey d k = true := by
    simp only [hasKey, List.any_eq_true]
    exact ⟨e, he, hc⟩
  simp [this] at h

theorem find?_eq_none_of_not_hasKey {d : Rooms} {k : String} (h : hasKey d k = false) :
    d.find? (fun e => e.1 == k) = none := by
  rw [List.find?_eq_none]
  intro e he hbeq
  have := hasKey_false_of_no_match h e he
  simp [hbeq] at this

theorem dictSet_map_of_no_match {d : Rooms} {k : String} {v : Room}
    (h : hasKey d k = false) :
    d.map (fun e => if e.1 == k then (k, v) else e) = d := by
  apply map_fixed_eq_self
  intro a ha
  simp [hasKey_false_of_no_match h a ha]

theorem dictGet_dictSet_self (d : Rooms) (k : String) (v : Room) :
    dictGet (dictSet d k v) k = some v := by
  by_cases h : hasKey d k
  · simp only [dictSet, h, if_true]
    induction d with
    | nil => simp [hasKey] at h
    | cons e es ih =>
      by_cases he : e.1 == k
      · simp [dictGet, List.find?, he]
      · have h' : hasKey es k = true := by
          simp only [hasKey, List.any_cons, he, Bool.false_or] at h
          exact h
        simp only [List.map_cons, if_neg he]
        simp only [dictGet, List.find?, he] at ih ⊢
        exact ih h'
  · rw [Bool.not_eq_true] at h
    simp only [dictSet, h]
    rw [if_neg (show ¬(false = true) by simp)]
    unfold dictGet
    rw [List.find?_append, find?_eq_none_of_not_hasKey h]
    simp [List.find?]

theorem dictGet_dictSet_ne (d : Rooms) (k k' : String) (v : Room) (h : k' ≠ k) :
    dictGet (dictSet d k v) k' = dictGet d k' := by
  have hkk : (k == k') = false := by
    simp only [beq_eq_false_iff_ne, ne_eq]
    exact fun hc => h hc.symm
  by_cases hk : hasKey d k
  · simp only [dictSet, hk, if_true]
    induction d with
    | nil => simp [dictGet]
    | cons e es ih =>
      by_cases he : e.1 == k
      · have he' : (e.1 == k') = false := by
          have h1 : e.1 = k := eq_of_beq he
          simp only [h1]
          exact hkk
        simp only [List.map_cons, if_pos he]
        simp only [dictGet, List.find?, hkk, he']
        by_cases hk2 : hasKey es k
        · simp only [dictGet, List.find?] at ih
          exact ih hk2
        · rw [Bool.not_eq_true] at hk2
          rw [dictSet_map_of_no_match hk2]
      · simp only [List.map_cons, if_neg he]
        simp only [dictGet, List.find?] at ih ⊢
        by_cases he' : e.1 == k'
        · simp [he']
        · simp only [he']
          by_cases hk2 : hasKey es k
          · exact ih hk2
          · rw [Bool.not_eq_true] at hk2
            rw [dictSet_map_of_no_match hk2]
  · rw [Bool.not_eq_true] at hk
    simp only [dictSet, hk]
    rw [if_neg (show ¬(false = true) by simp)]
    unfold dictGet
    rw [List.find?_append]
    rcases hf : List.find? (fun e => e.1 == k') d with _ | e
    · rw [hf]
      simp [List.find?, hkk]
    · rw [hf]
      simp

theorem mem_of_dictGet {d : Rooms} {k : String} {v : Room} (h : dictGet d k = some v) :
    (k, v) ∈ d := by
  simp only [dictGet] at h
  rcases hf : d.find? (fun e => e.1 == k) with _ | e
  · rw [hf] at h; exact absurd h (by simp)
  · rw [hf] at h
    have hmem := List.mem_of_find?_eq_some hf
    have hp := List.find?_some hf
    have h1 : e.1 = k := eq_of_beq hp
    have h2 : e.2 = v := by injection h
    have he : e = (k, v) := by
      cases e
      simp_all
    rwa [he] at hmem

theorem hasKey_of_dictGet {d : Rooms} {k : String} {v : Room} (h : dictGet d k = some v) :
    hasKey d k = true := by
  have := mem_of_dictGet h
  simp only [hasKey, List.any_eq_true]
  exact ⟨(k, v), this, by simp⟩

theorem dictSet_eq_self {d : Rooms} {k : String} {v : Room}
    (hnd : (d.map Prod.fst).Nodup) (h : dictGet d k = some v) :
    dictSet d k v = d := by
  have hk := hasKey_of_dictGet h
  simp only [dictSet, hk, if_true]
  clear hk
  induction d with
  | nil => simp
  | cons e es ih =>
    simp only [List.map_cons, List.nodup_cons] at hnd
    by_cases he : e.1 == k
    · have h1 : e.1 = k := eq_of_beq he
      have h2 : e.2 = v := by
        simp only [dictGet, List.find?, he] at h
        injection h
      have htl : es.map (fun e => if e.1 == k then (k, v) else e) = es := by
        apply map_fixed_eq_self
        intro a ha
        have hne : (a.1 == k) = false := by
          by_contra hc
          rw [Bool.not_eq_false] at hc
          have hak : a.1 = k := eq_of_beq hc
          have hmem : a.1 ∈ es.map Prod.fst := List.mem_map_of_mem Prod.fst ha
          rw [hak, ← h1] at hmem
          exact hnd.1 hmem
        simp [hne]
      rw [List.map_cons, if_pos he, htl, ← h1, ← h2]
    · simp only [dictGet, List.find?, he] at h
      rw [List.map_cons, if_neg he, ih hnd.2 h]

theorem insDesc_perm (p : Player) (l : List Player) : (insDesc p l).Perm (p :: l) := by
  induction l with
  | nil => simp [insDesc]
  | cons q qs ih =>
    simp only [insDesc]
    split
    · exact List.Perm.refl _
    · exact (ih.cons q).trans (List.Perm.swap p q qs)

theorem sortDesc_perm (l : List Player) : (sortDesc l).Perm l := by
  induction l with
  | nil => simp [sortDesc]
  | cons x xs ih => exact (insDesc_perm x (sortDesc xs)).trans (ih.cons x)

theorem insDesc_sorted (p : Player) (l : List Player)
    (h : l.Pairwise (fun a b => b.score ≤ a.score)) :
    (insDesc p l).Pairwise (fun a b => b.score ≤ a.score) := by
  induction l with
  | nil => simp [insDesc]
  | cons q qs ih =>
    simp only [insDesc]
    rcases List.pairwise_cons.mp h with ⟨hq, hqs⟩
    split
    · rename_i hle
      refine List.pairwise_cons.mpr ⟨?_, h⟩
      intro b hb
      rcases hb with _ | hb
      · exact hle
      · exact le_trans (hq _ (by assumption)) hle
    · rename_i hgt
      push_neg at hgt
      refine List.pairwise_cons.mpr ⟨?_, ih hqs⟩
      intro b hb
      have := (insDesc_perm p qs).mem_iff.mp hb
      rcases List.mem_cons.mp this with rfl | hb'
      · exact le_of_lt hgt
      · exact hq _ hb'

theorem sortDesc_sorted (l : List Player) :
    (sortDesc l).Pairwise (fun a b => b.score ≤ a.score) := by
  induction l with
  | nil => simp [sortDesc]
  | cons x xs ih => exact insDesc_sorted x (sortDesc xs) ih

theorem insDesc_filter (p : Player) (l : List Player) (s : Int) :
    (insDesc p l).filter (fun q => q.score == s) =
      if p.score == s then p :: l.filter (fun q => q.score == s)
      else l.filter (fun q => q.score == s) := by
  induction l with
  | nil =>
    by_cases hp : (p.score == s) <;> simp [insDesc, List.filter, hp]
  | cons q qs ih =>
    simp only [insDesc]
    by_cases hle : q.score ≤ p.score
    · rw [if_pos hle]
      by_cases hp : (p.score == s) <;> by_cases hq : (q.score == s) <;>
        simp [List.filter_cons, hp, hq]
    · rw [if_neg hle]
      simp only [List.filter_cons, ih]
      by_cases hp : (p.score == s)
      · by_cases hq : (q.score == s)
        · exfalso
          have h1 : p.score = s := eq_of_beq hp
          have h2 : q.score = s := eq_of_beq hq
          exact hle (le_of_eq (h2.trans h1.symm))
        · simp [hp, hq]
      · simp [hp]

theorem sortDesc_filter (l : List Player) (s : Int) :
    (sortDesc l).filter (fun q => q.score == s) = l.filter (fun q => q.score == s) := by
  induction l with
  | nil => rfl
  | cons x xs ih =>
    show (insDesc x (sortDesc xs)).filter _ = _
    rw [insDesc_filter, List.filter_cons]
    by_cases hx : (x.score == s) <;> simp [hx, ih]

theorem roomInv_claim {room : Room} (h : roomInv room) :
    room.players ≠ [] ∧ room.players.countP (fun p => p.is_host) = 1 ∧
    ∃ p ∈ room.players, p.is_host = true ∧ p.id = room.host_id := by
  unfold roomInv at h
  rcases hp : room.players with _ | ⟨p, rest⟩
  · rw [hp] at h
    exact h.elim
  · rw [hp] at h
    obtain ⟨h1, h2, h3⟩ := h
    refine ⟨by simp [hp], ?_, ⟨p, by simp [hp], h1, h2⟩⟩
    rw [List.countP_cons]
    have hz : rest.countP (fun p => p.is_host) = 0 := by
      rw [List.countP_eq_zero]
      intro q hq
      simp [h3 q hq]
    simp [h1, hz]

theorem regInv_dictSet {d : Rooms} {k : String} {v : Room}
    (h : regInv d) (hk : hasKey d k = true) (hv : roomInv v) :
    regInv (dictSet d k v) := by
  intro e he
  have hset : dictSet d k v = d.map (fun e => if e.1 == k then (k, v) else e) := by
    simp [dictSet, hk]
  rw [hset] at he
  rcases List.mem_map.mp he with ⟨a, ha, rfl⟩
  by_cases hak : (a.1 == k)
  · rw [if_pos hak]
    have h1 : a.1 = k := eq_of_beq hak
    exact ⟨by rw [← h1]; exact (h a ha).1, hv⟩
  · rw [if_neg hak]
    exact h a ha

theorem regInv_append {d : Rooms} {k : String} {v : Room}
    (h : regInv d) (hcan : pyUpper k = k) (hv : roomInv v) :
    regInv (d ++ [(k, v)]) := by
  intro e he
  rcases List.mem_append.mp he with h1 | h2
  · exact h e h1
  · have he2 : e = (k, v) := by simpa using h2
    rw [he2]
    exact ⟨hcan, hv⟩

theorem regInv_del_after_set {d : Rooms} {k : String} (v : Room)
    (h : regInv d) : regInv (dictDel (dictSet d k v) k) := by
  intro e he
  simp only [dictDel] at he
  rcases List.mem_filter.mp he with ⟨he1, he2⟩
  have hne : e.1 ≠ k := by simpa using he2
  by_cases hk : hasKey d k
  · have hset : dictSet d k v = d.map (fun x => if x.1 == k then (k, v) else x) := by
      simp [dictSet, hk]
    rw [hset] at he1
    rcases List.mem_map.mp he1 with ⟨a, ha, hae⟩
    by_cases hak : (a.1 == k)
    · rw [if_pos hak] at hae
      exact absurd (by rw [← hae]) hne
    · rw [if_neg hak] at hae
      rw [← hae]
      exact h a ha
  · rw [Bool.not_eq_true] at hk
    have hset : dictSet d k v = d ++ [(k, v)] := by
      simp only [dictSet, hk]
      rw [if_neg (show ¬(false = true) by simp)]
    rw [hset] at he1
    rcases List.mem_append.mp he1 with h1 | h2
    · exact h e h1
    · have he3 : e = (k, v) := by simpa using h2
      exact absurd (by rw [he3]) hne

theorem regInv_applyOp {rooms : Rooms} {op : Op}
    (h : regInv rooms) (hok : opOkB rooms op = true) : regInv (applyOp rooms op) := by
  cases op with
  | create code pid name now =>
    simp only [opOkB, Bool.and_eq_true, beq_iff_eq, Bool.not_eq_true'] at hok
    obtain ⟨hcan, hfresh⟩ := hok
    simp only [applyOp, create_room]
    have hset : dictSet rooms code
        { code := code, host_id := pid,
          players := [{ id := pid, name := name, is_host := true }], created_at := now } =
        rooms ++ [(code,
          { code := code, host_id := pid,
            players := [{ id := pid, name := name, is_host := true }], created_at := now })] := by
      simp only [dictSet, hfresh]
      rw [if_neg (show ¬(false = true) by simp)]
    rw [hset]
    exact regInv_append h hcan ⟨rfl, rfl, by simp⟩
  | join code name pid =>
    rcases hg : get_room rooms code with _ | room
    · have heq : applyOp rooms (Op.join code name pid) = rooms := by
        simp [applyOp, join_room, hg]
      rw [heq]
      exact h
    · by_cases hst : room.status = "waiting"
      case neg =>
        have heq : applyOp rooms (Op.join code name pid) = rooms := by
          simp [applyOp, join_room, hg, hst]
        rw [heq]
        exact h
      case pos =>
        by_cases hcap : 10 ≤ room.players.length
        · have heq : applyOp rooms (Op.join code name pid) = rooms := by
            simp [applyOp, join_room, hg, hst, hcap]
          rw [heq]
          exact h
        · have heq : applyOp rooms (Op.join code name pid) =
              dictSet rooms (pyUpper code)
                { room with players := room.players ++ [{ id := pid, name := name }] } := by
            simp [applyOp, join_room, hg, hst, hcap]
          rw [heq]
          apply regInv_dictSet h (hasKey_of_dictGet hg)
          have hri : roomInv room := (h _ (mem_of_dictGet hg)).2
          unfold roomInv at hri ⊢
          rcases hp : room.players with _ | ⟨p0, rest⟩
          · rw [hp] at hri
            exact hri.elim
          · rw [hp] at hri
            obtain ⟨h1, h2, h3⟩ := hri
            simp only [hp, List.cons_append]
            refine ⟨h1, h2, ?_⟩
            intro q hq
            rcases List.mem_append.mp hq with hq1 | hq2
            · exact h3 q hq1
            · have hq3 : q = { id := pid, name := name } := by simpa using hq2
              rw [hq3]
  | leave code pid =>
    simp only [opOkB, beq_iff_eq] at hok
    rcases hg : get_room rooms code with _ | room
    · have heq : applyOp rooms (Op.leave code pid) = rooms := by
        simp [applyOp, leave_room, hg]
      rw [heq]
      exact h
    · have hri : roomInv room := (h _ (mem_of_dictGet hg)).2
      simp only [applyOp, leave_room, hg]
      split
      · -- the filtered player list is empty: the room is deleted (the run uses
        -- the canonical code, so the raw-code deletion succeeds)
        split
        · rename_i hk1
          rw [hok]
          exact regInv_del_after_set _ h
        · rename_i hk1
          rw [hok] at hk1
          exact absurd (hasKey_of_dictGet (dictGet_dictSet_self rooms code _)) hk1
      · rename_i hne
        show regInv (dictSet rooms (pyUpper code) _)
        apply regInv_dictSet h (hasKey_of_dictGet hg)
        split
        · -- the departing player was the host
          rename_i hpid
          split
          · rename_i hflt
            rw [hflt] at hne
            simp at hne
          · rename_i p rest hflt
            unfold roomInv at hri
            rcases hp : room.players with _ | ⟨p0, rest0⟩
            · rw [hp] at hri
              exact hri.elim
            · rw [hp] at hri
              obtain ⟨h1, h2, h3⟩ := hri
              unfold roomInv
              refine ⟨rfl, rfl, ?_⟩
              intro q hq
              have hq0 : q ∈ room.players.filter (fun x => decide (x.id ≠ pid)) := by
                rw [hflt]
                exact List.mem_cons_of_mem p hq
              have hq1 : q ∈ room.players := List.mem_of_mem_filter hq0
              rw [hp] at hq1
              rcases List.mem_cons.mp hq1 with rfl | hq2
              · have hqne : ¬(q.id = pid) := by simpa using List.of_mem_filter hq0
                exact absurd (h2.trans hpid.symm) hqne
              · exact h3 q hq2
        · -- a non-host left: the head of the list survives the filter
          rename_i hpid
          unfold roomInv at hri
          rcases hp : room.players with _ | ⟨p0, rest0⟩
          · rw [hp] at hri
            exact hri.elim
          · rw [hp] at hri
            obtain ⟨h1, h2, h3⟩ := hri
            have hp0 : (decide (p0.id ≠ pid)) = true := by
              simp only [decide_eq_true_eq, ne_eq]
              intro hc
              exact hpid (hc.symm.trans h2)
            unfold roomInv
            simp only [List.filter_cons, hp0, if_true, eq_self_iff_true]
            refine ⟨h1, h2, ?_⟩
            intro q hq
            exact h3 q (List.mem_of_mem_filter hq)

theorem regInv_runOps_aux (ops : List Op) :
    ∀ (rooms : Rooms), regInv rooms → opsOkB rooms ops = true →
      regInv (ops.foldl applyOp rooms) := by
  induction ops with
  | nil =>
    intro rooms h _
    exact h
  | cons op rest ih =>
    intro rooms h hok
    simp only [opsOkB, Bool.and_eq_true] at hok
    exact ih _ (regInv_applyOp h hok.1) hok.2

/-- Claim C1 (code_bug evidence): a correct `submit_guess` on a one-player
playing room adds exactly 100 to that player's score and changes nothing else
in the registry — in particular no per-player round counter moves, because
`models.Player` has no such field and `RoomManager.submit_guess` touches only
`score`. -/
theorem c1_submit_guess_adds_score_only :
    submit_guess guessDemo "GUESS1" "HOST0001" "paris" true =
      ([("GUESS1", { soloRoom "GUESS1" "HOST0001" "Alice" with
                     status := "playing", current_round := 1,
                     players := [{ id := "HOST0001", name := "Alice", score := 100,
                                   is_host := true }] })], none) := by
  decide

/-- Claim C2 (code_bug evidence): `RoomManager.submit_guess` has no `return`
statement, so for every registry, code, player id, guess and correctness flag
it returns Python `None` — never a `{score, current_round, finished}` result
and never a `"player not found"` error value.  `main.py` line 215 then calls
`result.get("error")` on that `None`, raising `AttributeError`. -/
theorem c2_submit_guess_returns_no_result (rooms : Rooms) (code pid g : String) (b : Bool) :
    (submit_guess rooms code pid g b).2 = none := by
  simp only [submit_guess]
  rcases get_room rooms code with _ | room <;> rfl

/-- Claim C3 (code_bug evidence): after create, start and five `next_round`
calls — with no guess ever submitted — the room's status is `"finished"` even
though its only player is untouched (score 0, the very player record created
at create time).  Promotion to `finished` comes from the room-level counter in
`next_round`; no `check_all_finished` method exists in `RoomManager`, although
`main.py` line 226 calls one. -/
theorem c3_room_finished_without_player_progress :
    (get_room chainDemo "QWERTY").map Room.status = some "finished" ∧
    (get_room chainDemo "QWERTY").map Room.players =
      some [{ id := "HOST0002", name := "Bob", is_host := true }] := by
  decide

/-- Claim C4 counterexample: `finishDemo` reaches status `"finished"` through
the public operations, yet one further `start_game` call on it sets the status
back to `"playing"` — `RoomManager.start_game` never checks the current
status, so `finished` is not terminal. -/
theorem c4_counterexample_start_game_leaves_finished :
    (get_room finishDemo "ABCDEF").map Room.status = some "finished" ∧
    (get_room (start_game finishDemo "ABCDEF").1 "ABCDEF").map Room.status = some "playing" := by
  decide

/-- Claim C4 (amended): `next_round` and `submit_guess` never move a room out
of status `"finished"`, but `start_game` on a finished room with at least one
player resets its status to `"playing"`; `finished` is terminal only with
respect to round advances and guesses, not with respect to `start_game`. -/
theorem c4_finished_stable_except_start_game (rooms : Rooms) (code pid g : String) (b : Bool)
    (room : Room) (hget : get_room rooms code = some room) (hfin : room.status = "finished") :
    ((get_room (next_round rooms code).1 code).map Room.status = some "finished") ∧
    ((get_room (submit_guess rooms code pid g b).1 code).map Room.status = some "finished") ∧
    (room.players ≠ [] →
      (get_room (start_game rooms code).1 code).map Room.status = some "playing") := by
  refine ⟨?_, ?_, ?_⟩
  · simp only [next_round, hget]
    unfold get_room
    rw [dictGet_dictSet_self]
    by_cases hc : room.max_rounds < room.current_round + 1 <;> simp [hc, hfin]
  · simp only [submit_guess, hget]
    unfold get_room
    rw [dictGet_dictSet_self]
    simp [hfin]
  · intro hne
    simp only [start_game, hget]
    rw [if_neg (by simp [List.length_pos, hne])]
    unfold get_room
    rw [dictGet_dictSet_self]
    simp

/-- Witness for C4's theorem at the concrete finished room `finishDemo`. -/
theorem c4_witness :
    (get_room finishDemo "ABCDEF" = some finishRoom ∧ finishRoom.status = "finished") ∧
    (((get_room (next_round finishDemo "ABCDEF").1 "ABCDEF").map Room.status = some "finished") ∧
     ((get_room (submit_guess finishDemo "ABCDEF" "HOST0001" "oslo" true).1 "ABCDEF").map
         Room.status = some "finished") ∧
     (finishRoom.players ≠ [] →
       (get_room (start_game finishDemo "ABCDEF").1 "ABCDEF").map Room.status = some "playing")) :=
  ⟨⟨by decide, by decide⟩,
   c4_finished_stable_except_start_game finishDemo "ABCDEF" "HOST0001" "oslo" true finishRoom
     (by decide) (by decide)⟩

/-- Claim C5 counterexample: the two-operation sequence `opsDemo` — create a
room with code `"AB12C3"`, then have the host leave using the lower-cased code
`"ab12c3"` — leaves the registry holding a room with an empty player list (the
`del self.rooms[code]` step raised `KeyError` on the raw code after the player
list had already been emptied), refuting the claimed invariant. -/
theorem c5_counterexample_lowercase_leave :
    ¬ (∀ e ∈ runOps opsDemo,
        e.2.players ≠ [] ∧ e.2.players.countP (fun p => p.is_host) = 1 ∧
        ∃ p ∈ e.2.players, p.is_host = true ∧ p.id = e.2.host_id) := by
  decide

/-- Claim C5 (amended): for every sequence of create/join/leave operations
whose created codes are fresh and uppercase (as `generate_code` guarantees)
and whose leave calls pass the room code in canonical uppercase form, every
registered room has a non-empty player list with exactly one `is_host = true`
player whose id equals the room's `host_id`; and whenever the host leaves with
players remaining, host status transfers to the head of the remaining list —
the earliest-joined survivor. -/
theorem c5_host_invariant (ops : List Op) (h : opsOkB [] ops = true) :
    (∀ e ∈ runOps ops,
        e.2.players ≠ [] ∧ e.2.players.countP (fun p => p.is_host) = 1 ∧
        ∃ p ∈ e.2.players, p.is_host = true ∧ p.id = e.2.host_id) ∧
    (∀ (rooms : Rooms) (code pid : String) (room : Room) (p : Player) (rest : List Player),
        get_room rooms code = some room → pid = room.host_id →
        room.players.filter (fun q => q.id ≠ pid) = p :: rest →
        get_room (leave_room rooms code pid).rooms code =
          some { room with
                 players := { p with is_host := true } :: rest,
                 host_id := p.id }) := by
  constructor
  · have hreg : regInv (runOps ops) :=
      regInv_runOps_aux ops [] (by intro e he; exact absurd he (by simp)) h
    intro e he
    exact roomInv_claim (hreg e he).2
  · intro rooms code pid room p rest hget hpid hfil
    simp only [leave_room, hget, hfil]
    rw [if_neg (by simp), if_pos hpid]
    unfold get_room
    rw [dictGet_dictSet_self]

/-- Witness for C5's theorem at the concrete run `opsDemoOk`. -/
theorem c5_witness :
    opsOkB [] opsDemoOk = true ∧
    ((∀ e ∈ runOps opsDemoOk,
        e.2.players ≠ [] ∧ e.2.players.countP (fun p => p.is_host) = 1 ∧
        ∃ p ∈ e.2.players, p.is_host = true ∧ p.id = e.2.host_id) ∧
     (∀ (rooms : Rooms) (code pid : String) (room : Room) (p : Player) (rest : List Player),
        get_room rooms code = some room → pid = room.host_id →
        room.players.filter (fun q => q.id ≠ pid) = p :: rest →
        get_room (leave_room rooms code pid).rooms code =
          some { room with
                 players := { p with is_host := true } :: rest,
                 host_id := p.id })) :=
  ⟨by decide, c5_host_invariant opsDemoOk (by decide)⟩

/-- Claim C6 (code_bug evidence): leaving with the lower-cased code
`"xy99zz"` resolves the room case-insensitively and empties its player list,
but the deletion `del self.rooms[code]` uses the raw code and raises
`KeyError`; the emptied room is still returned by a subsequent `get_room`
instead of the claimed NotFound. -/
theorem c6_leave_room_raw_code_key_error :
    (leave_room leaveDemo "xy99zz" "HOSTID22").key_error = true ∧
    get_room (leave_room leaveDemo "xy99zz" "HOSTID22").rooms "xy99zz" =
      some { soloRoom "XY99ZZ" "HOSTID22" "Carol" with players := [] } := by
  decide

/-- Claim C7 (code_bug evidence): a successful `join_room` appends a player
whose complete field set is `id`, `name`, `score = 0`, `is_host = false`,
`connected = true` — `models.Player` defines no `current_round` field at all,
so the claimed `currentRound = 0` initialisation does not exist, even though
`main.py` lines 223 and 251 read `player.current_round`. -/
theorem c7_join_room_appends_plain_player :
    join_room joinDemo "join77" "Bob" "PLAYERB2" =
      some ([("JOIN77", { soloRoom "JOIN77" "HOST0003" "Dan" with
                          players := [{ id := "HOST0003", name := "Dan", is_host := true },
                                      { id := "PLAYERB2", name := "Bob", score := 0,
                                        is_host := false, connected := true }] })],
            { soloRoom "JOIN77" "HOST0003" "Dan" with
              players := [{ id := "HOST0003", name := "Dan", is_host := true },
                          { id := "PLAYERB2", name := "Bob", score := 0,
                            is_host := false, connected := true }] }, "PLAYERB2") := by
  decide

/-- Claim C8: for a room with populated quiz data and `1 ≤ roundNum`, if
`roundNum` does not exceed the number of questions then
`update_question_for_round` stores a current question built from
`questions[roundNum - 1]` with the hint window `hints[start:end]` where
`hintsPerRound = max 1 (len hints / maxRounds)` (integer division),
`start = (roundNum - 1) * hintsPerRound` and
`end = min (start + hintsPerRound) (len hints)`, and sets the room round to
`roundNum`; if `roundNum` exceeds the question count the registry is
unchanged. -/
theorem c8_update_question_for_round_slicing (rooms : Rooms) (code : String) (round_num : Nat)
    (room : Room) (qd : QuizData)
    (hget : get_room rooms code = some room) (hqd : room.quiz_data = some qd)
    (h1 : 1 ≤ round_num) :
    (∀ hle : round_num ≤ qd.questions.length,
      ∃ hq : round_num - 1 < qd.questions.length,
        get_room (update_question_for_round rooms code round_num) code =
          some { room with
                 current_round := round_num,
                 current_question := some
                   { id := round_num,
                     text := (qd.questions.get ⟨round_num - 1, hq⟩).text,
                     article_title := qd.title,
                     article_url := (room.article.map Article.url).getD "",
                     hints := (qd.hints.take
                         (min ((round_num - 1) * max 1 (qd.hints.length / room.max_rounds) +
                               max 1 (qd.hints.length / room.max_rounds))
                           qd.hints.length)).drop
                         ((round_num - 1) * max 1 (qd.hints.length / room.max_rounds)),
                     answer_keywords := qd.answer_keywords,
                     difficulty := round_num } }) ∧
    (qd.questions.length < round_num →
      update_question_for_round rooms code round_num = rooms) := by
  constructor
  · intro hle
    have hq : round_num - 1 < qd.questions.length := by omega
    refine ⟨hq, ?_⟩
    simp only [update_question_for_round, hget, hqd]
    rw [if_pos ⟨h1, hle⟩]
    unfold get_room
    rw [dictGet_dictSet_self]
    have hgd : qd.questions.getD (round_num - 1) ⟨""⟩ = qd.questions.get ⟨round_num - 1, hq⟩ := by
      rw [List.getD_eq_getElem qd.questions ⟨""⟩ hq]
      simp
    rw [hgd]
    simp only [pySlice]
  · intro hgt
    simp only [update_question_for_round, hget, hqd]
    rw [if_neg (by omega)]

/-- Witness for C8's theorem: round 2 of `quizDemo` (3 questions, 6 hints). -/
theorem c8_witness :
    (get_room quizDemo "QUIZ88" = some quizRoom ∧ quizRoom.quiz_data = some quizDemoData ∧
     1 ≤ 2) ∧
    ((∀ hle : 2 ≤ quizDemoData.questions.length,
      ∃ hq : 2 - 1 < quizDemoData.questions.length,
        get_room (update_question_for_round quizDemo "QUIZ88" 2) "QUIZ88" =
          some { quizRoom with
                 current_round := 2,
                 current_question := some
                   { id := 2,
                     text := (quizDemoData.questions.get ⟨2 - 1, hq⟩).text,
                     article_title := quizDemoData.title,
                     article_url := (quizRoom.article.map Article.url).getD "",
                     hints := (quizDemoData.hints.take
                         (min ((2 - 1) * max 1 (quizDemoData.hints.length / quizRoom.max_rounds) +
                               max 1 (quizDemoData.hints.length / quizRoom.max_rounds))
                           quizDemoData.hints.length)).drop
                         ((2 - 1) * max 1 (quizDemoData.hints.length / quizRoom.max_rounds)),
                     answer_keywords := quizDemoData.answer_keywords,
                     difficulty := 2 } }) ∧
     (quizDemoData.questions.length < 2 →
      update_question_for_round quizDemo "QUIZ88" 2 = quizDemo)) :=
  ⟨⟨by decide, by decide, by decide⟩,
   c8_update_question_for_round_slicing quizDemo "QUIZ88" 2 quizRoom quizDemoData
     (by decide) (by decide) (by decide)⟩

/-- Claim C9: `get_leaderboard` returns the room's players sorted by score
in descending order: the output is pairwise non-increasing in score, is a
permutation of the player list, and for every score value the players holding
it appear in their original join order (the stable tie-break of CPython's
`sorted`), which makes the order of equal-score players deterministic; the
embedding is a pure function, so calling it twice on the same state trivially
yields the same order. -/
theorem c9_get_leaderboard_sorted_stable (rooms : Rooms) (code : String) (room : Room)
    (hget : get_room rooms code = some room) :
    (get_leaderboard rooms code).Pairwise (fun a b => b.score ≤ a.score) ∧
    (get_leaderboard rooms code).Perm room.players ∧
    (∀ s : Int, (get_leaderboard rooms code).filter (fun p => p.score == s) =
        room.players.filter (fun p => p.score == s)) := by
  simp only [get_leaderboard, hget]
  exact ⟨sortDesc_sorted _, sortDesc_perm _, fun s => sortDesc_filter _ s⟩

/-- Witness for C9's theorem at the tied leaderboard `boardDemo`. -/
theorem c9_witness :
    (get_room boardDemo "LEAD55" = some boardRoom) ∧
    ((get_leaderboard boardDemo "LEAD55").Pairwise (fun a b => b.score ≤ a.score) ∧
     (get_leaderboard boardDemo "LEAD55").Perm boardRoom.players ∧
     (∀ s : Int, (get_leaderboard boardDemo "LEAD55").filter (fun p => p.score == s) =
        boardRoom.players.filter (fun p => p.score == s))) :=
  ⟨by decide, c9_get_leaderboard_sorted_stable boardDemo "LEAD55" boardRoom (by decide)⟩

/-- Claim C10: `submit_guess` on an existing room leaves every other
registry key unchanged, preserves the room's `host_id`, `status`,
`current_round`, `current_question`, `quiz_data`, `article`, `max_rounds`,
`code` and `created_at`, preserves the player list's length and every
player's `id`, `name`, `is_host` and `connected` flags in place, changing
only the score of players whose id matches (by +100 when correct); and when
the guess is incorrect or no player matches, the whole registry is exactly
unchanged. -/
theorem c10_submit_guess_frame (rooms : Rooms) (code pid g : String) (b : Bool) (room : Room)
    (hget : get_room rooms code = some room)
    (hnd : (rooms.map Prod.fst).Nodup) :
    (∀ c, pyUpper c ≠ pyUpper code →
        get_room (submit_guess rooms code pid g b).1 c = get_room rooms c) ∧
    (∃ room', get_room (submit_guess rooms code pid g b).1 code = some room' ∧
        room'.host_id = room.host_id ∧ room'.status = room.status ∧
        room'.current_round = room.current_round ∧
        room'.current_question = room.current_question ∧
        room'.quiz_data = room.quiz_data ∧ room'.article = room.article ∧
        room'.max_rounds = room.max_rounds ∧ room'.code = room.code ∧
        room'.created_at = room.created_at ∧
        room'.players.length = room.players.length ∧
        ∀ i : Fin room.players.length,
          ∃ hi : i.1 < room'.players.length,
            (room'.players.get ⟨i.1, hi⟩).id = (room.players.get i).id ∧
            (room'.players.get ⟨i.1, hi⟩).name = (room.players.get i).name ∧
            (room'.players.get ⟨i.1, hi⟩).is_host = (room.players.get i).is_host ∧
            (room'.players.get ⟨i.1, hi⟩).connected = (room.players.get i).connected ∧
            (room'.players.get ⟨i.1, hi⟩).score =
              (if (room.players.get i).id = pid ∧ b = true then (room.players.get i).score + 100
               else (room.players.get i).score)) ∧
    ((b = false ∨ ∀ p ∈ room.players, p.id ≠ pid) →
        (submit_guess rooms code pid g b).1 = rooms) := by
  have hsub : (submit_guess rooms code pid g b).1 =
      dictSet rooms (pyUpper code)
        { room with players := room.players.map (fun p =>
            if p.id = pid ∧ b = true then { p with score := p.score + 100 } else p) } := by
    simp only [submit_guess, hget]
  refine ⟨?_, ?_, ?_⟩
  · intro c hc
    rw [hsub]
    unfold get_room
    exact dictGet_dictSet_ne _ _ _ _ hc
  · refine ⟨{ room with players := room.players.map (fun p =>
        if p.id = pid ∧ b = true then { p with score := p.score + 100 } else p) },
      ?_, rfl, rfl, rfl, rfl, rfl, rfl, rfl, rfl, rfl, by simp, ?_⟩
    · rw [hsub]
      unfold get_room
      rw [dictGet_dictSet_self]
    · intro i
      refine ⟨by simp [i.2], ?_⟩
      simp only [List.get_eq_getElem, List.getElem_map]
      by_cases hcond : room.players[i.1].id = pid ∧ b = true
      · simp [hcond]
      · simp [hcond]
  · intro hor
    have hmap : room.players.map (fun p =>
        if p.id = pid ∧ b = true then { p with score := p.score + 100 } else p) =
        room.players := by
      apply map_fixed_eq_self
      intro p hp
      rcases hor with hb | hall
      · rw [if_neg]
        rintro ⟨h1x, h2x⟩
        rw [hb] at h2x
        exact absurd h2x (by simp)
      · rw [if_neg]
        rintro ⟨h1x, h2x⟩
        exact hall p hp h1x
    rw [hsub, hmap]
    exact dictSet_eq_self hnd hget

/-- Witness for C10's theorem: the host of `frameDemo` guesses correctly. -/
theorem c10_witness :
    (get_room frameDemo "FRAME9" = some frameRoom ∧
     (frameDemo.map Prod.fst).Nodup) ∧
    ((∀ c, pyUpper c ≠ pyUpper "FRAME9" →
        get_room (submit_guess frameDemo "FRAME9" "HOST0006" "oslo" true).1 c =
          get_room frameDemo c) ∧
     (∃ room', get_room (submit_guess frameDemo "FRAME9" "HOST0006" "oslo" true).1 "FRAME9" =
          some room' ∧
        room'.host_id = frameRoom.host_id ∧ room'.status = frameRoom.status ∧
        room'.current_round = frameRoom.current_round ∧
        room'.current_question = frameRoom.current_question ∧
        room'.quiz_data = frameRoom.quiz_data ∧ room'.article = frameRoom.article ∧
        room'.max_rounds = frameRoom.max_rounds ∧ room'.code = frameRoom.code ∧
        room'.created_at = frameRoom.created_at ∧
        room'.players.length = frameRoom.players.length ∧
        ∀ i : Fin frameRoom.players.length,
          ∃ hi : i.1 < room'.players.length,
            (room'.players.get ⟨i.1, hi⟩).id = (frameRoom.players.get i).id ∧
            (room'.players.get ⟨i.1, hi⟩).name = (frameRoom.players.get i).name ∧
            (room'.players.get ⟨i.1, hi⟩).is_host = (frameRoom.players.get i).is_host ∧
            (room'.players.get ⟨i.1, hi⟩).connected = (frameRoom.players.get i).connected ∧
            (room'.players.get ⟨i.1, hi⟩).score =
              (if (frameRoom.players.get i).id = "HOST0006" ∧ true = true then
                 (frameRoom.players.get i).score + 100
               else (frameRoom.players.get i).score)) ∧
     ((true = false ∨ ∀ p ∈ frameRoom.players, p.id ≠ "HOST0006") →
        (submit_guess frameDemo "FRAME9" "HOST0006" "oslo" true).1 = frameDemo)) :=
  ⟨⟨by decide, by decide⟩,
   c10_submit_guess_frame frameDemo "FRAME9" "HOST0006" "oslo" true frameRoom
     (by decide) (by decide)⟩

end AtuGame
